import Mathlib

/-!
# Verification of the jvcmd command-line parsing engine

Shallow embedding of `src/jvcmd/jvcmd.c` (and its public contract in
`src/jvcmd/jvcmd.h`).  Tokens and C strings are modelled as `List Char`;
descriptor mutation is modelled by explicit state passing; the
process-terminating paths (`exit(0)` for help/attribution, `exit(1)` for
errors) are modelled by an `Except` monad whose error type records which
exit was taken.  Caller-supplied callbacks (`action`, `action_extra_value`)
are external extension points (spec section 4.2) and are modelled as absent
(for `action_extra_value` only its presence/absence matters to control flow,
so that is kept as a boolean).
-/

namespace Jvcmd

/-- Modelled from the spec: the string-slice utility `StrView.h` is not part
of `src/`; the spec describes it as bounded sub-views of a byte sequence
supporting prefix test, find, and split-at-offset.  `jvstr_find` returns the
index of the first occurrence of `c`, or the length when absent. -/
def jvstrFind (s : List Char) (c : Char) : Nat :=
  s.findIdx (fun x => x = c)

/-- Modelled from the spec: `jvstr_split(&v, off, gap)` returns the first
`off` characters and leaves `v` holding everything past `off + gap`.
We return the pair (extracted, remainder). -/
def jvstrSplit (s : List Char) (off gap : Nat) : List Char × List Char :=
  (s.take off, s.drop (off + gap))

/-- `is_in_space_delimited_list` from jvcmd.c: walks the space-delimited
`values` with a do/while, comparing `value` against each member. -/
def isInSpaceList (value : List Char) (values : List Char) : Bool :=
  if value = (jvstrSplit values (jvstrFind values ' ') 1).1 then true
  else if 0 < (jvstrSplit values (jvstrFind values ' ') 1).2.length then
    isInSpaceList value (jvstrSplit values (jvstrFind values ' ') 1).2
  else false
termination_by values.length
decreasing_by
  simp only [jvstrSplit, List.length_drop] at *
  omega

/-! ## Model of the C library numeric conversions -/

def isSpaceChar (c : Char) : Bool :=
  c = ' ' || c = '\t' || c = '\n' || c = '\x0b' || c = '\x0c' || c = '\r'

def digitValue (base : Nat) (c : Char) : Option Nat :=
  let v :=
    if '0' ≤ c ∧ c ≤ '9' then some (c.toNat - '0'.toNat)
    else if 'a' ≤ c ∧ c ≤ 'z' then some (c.toNat - 'a'.toNat + 10)
    else if 'A' ≤ c ∧ c ≤ 'Z' then some (c.toNat - 'A'.toNat + 10)
    else none
  match v with
  | some n => if n < base then some n else none
  | none => none

/-- Consume a maximal run of digits in `base`, accumulating the value.
Returns (value, number of digits consumed). -/
def takeDigits (base : Nat) : List Char → Nat → Nat → Nat × Nat
  | [], acc, n => (acc, n)
  | c :: rest, acc, n =>
    match digitValue base c with
    | some d => takeDigits base rest (acc * base + d) (n + 1)
    | none => (acc, n)

structure StrtolResult where
  value : Int
  /-- Number of characters consumed (`end - begin`); 0 when no conversion
  was performed, in which case `strtol` stores `begin` into `*end`. -/
  consumed : Nat
  erange : Bool
  deriving Repr, DecidableEq

def longMax : Int := 2 ^ 63 - 1
def longMin : Int := -(2 ^ 63)

/-- Model of C `strtol(begin, &end, 0)`: optional whitespace, optional sign,
auto-detected radix (`0x`/`0X` hex, leading `0` octal, else decimal),
maximal digit run; clamps to `long` range setting `ERANGE`.  When no digit
is consumed at all, no conversion is performed and `end == begin`. -/
def strtolModel (s : List Char) : StrtolResult :=
  let ws := (s.takeWhile isSpaceChar).length
  let s1 := s.drop ws
  let (neg, signCount, s2) :=
    match s1 with
    | '-' :: rest => (true, 1, rest)
    | '+' :: rest => (false, 1, rest)
    | rest => (false, 0, rest)
  let (magnitude, digitCount) : Nat × Nat :=
    match s2 with
    | '0' :: x :: rest =>
      if (x = 'x' ∨ x = 'X') ∧ (digitValue 16 (rest.headD ' ')).isSome then
        let (v, n) := takeDigits 16 rest 0 0
        (v, n + 2)
      else
        let (v, n) := takeDigits 8 (x :: rest) 0 0
        (v, n + 1)
    | '0' :: rest =>
      let (v, n) := takeDigits 8 rest 0 0
      (v, n + 1)
    | rest => takeDigits 10 rest 0 0
  if digitCount = 0 then
    { value := 0, consumed := 0, erange := false }
  else
    let v : Int := if neg then -(magnitude : Int) else (magnitude : Int)
    if v > longMax then
      { value := longMax, consumed := ws + signCount + digitCount, erange := true }
    else if v < longMin then
      { value := longMin, consumed := ws + signCount + digitCount, erange := true }
    else
      { value := v, consumed := ws + signCount + digitCount, erange := false }

structure StrtofResult where
  value : Rat
  consumed : Nat
  deriving Repr, DecidableEq

/-- Modelled from the spec: C `strtof` ("parse as a floating-point literal
... consistent with the reference numeric-parse semantics of the target
language").  Decimal form: whitespace, sign, digits, optional fraction,
optional exponent; at least one mantissa digit is needed for a conversion,
otherwise no conversion is performed and `end == begin` (value 0). -/
def strtofModel (s : List Char) : StrtofResult :=
  let ws := (s.takeWhile isSpaceChar).length
  let s1 := s.drop ws
  let (neg, signCount, s2) :=
    match s1 with
    | '-' :: rest => (true, 1, rest)
    | '+' :: rest => (false, 1, rest)
    | rest => (false, 0, rest)
  let (ipart, icount) := takeDigits 10 s2 0 0
  let s3 := s2.drop icount
  let (fpart, fcount, dotCount) :=
    match s3 with
    | '.' :: rest =>
      let (f, n) := takeDigits 10 rest 0 0
      (f, n, 1)
    | _ => (0, 0, 0)
  if icount + fcount = 0 then
    { value := 0, consumed := 0 }
  else
    let s4 := s3.drop (dotCount + fcount)
    let (expVal, expCount) :=
      match s4 with
      | e :: rest =>
        if e = 'e' ∨ e = 'E' then
          let (eneg, esc, s5) :=
            match rest with
            | '-' :: r => (true, 1, r)
            | '+' :: r => (false, 1, r)
            | r => (false, 0, r)
          let (ev, en) := takeDigits 10 s5 0 0
          if en = 0 then ((0 : Int), 0)
          else ((if eneg then -(ev : Int) else (ev : Int)), 1 + esc + en)
        else ((0 : Int), 0)
      | [] => ((0 : Int), 0)
    let mag : Rat := (ipart : Rat) + (fpart : Rat) / ((10 : Rat) ^ fcount)
    let scaled : Rat :=
      if 0 ≤ expVal then mag * (10 : Rat) ^ expVal.toNat
      else mag / ((10 : Rat) ^ (-expVal).toNat)
    { value := if neg then -scaled else scaled
      consumed := ws + signCount + icount + dotCount + fcount + expCount }

/-! ## Data model: `jvArgument` and `jvParsingConfig` (jvcmd.h) -/

/-- `jvArgument` from jvcmd.h.  CONFIG fields first, then OUTPUT fields.
`short_name` is a `Char`, `'\x00'` meaning "no short name" as in C.
`value` is `Option` to keep the C distinction between NULL (never written)
and the empty string.  `float` values are modelled as `Rat`.  The `userdata`
and `action` callback fields are external extension points and are modelled
as absent (no descriptor in the claims carries an action). -/
structure JvArgument where
  name : List Char
  short_name : Char := '\x00'
  required : Bool := false
  need_value : Bool := false
  is_int : Bool := false
  is_float : Bool := false
  is_bool : Bool := false
  float_min : Rat := 0
  float_max : Rat := 0
  int_min : Int := 0
  int_max : Int := 0
  allowed_values : Option (List Char) := none
  default_value : Option (List Char) := none
  value : Option (List Char) := none
  specified : Bool := false
  as_int : Int := 0
  as_float : Rat := 0
  as_bool : Bool := false
  deriving Repr, DecidableEq

/-- `jvParsingConfig` from jvcmd.h, minus the pure help-text fields
(`description`, `usage`, `epilog`, `help` strings) which only affect printed
output.  The two descriptor lists are passed separately to the parsing
functions, standing for the C arrays reached through the config.  The
`action_extra_value` callback is kept only as its presence bit, which is
what drives control flow. -/
structure JvParsingConfig where
  no_help : Bool := false
  stops_at_last_pos : Bool := false
  program_name : Option (List Char) := none
  short_options_prefix : Option (List Char) := none
  options_prefix : Option (List Char) := none
  no_more_options : Option (List Char) := none
  nb_pos_args_required : Int := 0
  true_synonyms : Option (List Char) := none
  false_synonyms : Option (List Char) := none
  has_action_extra_value : Bool := false
  deriving Repr, DecidableEq

/-- The error taxonomy (spec section 7), as raised by
`jvcmd_exit_with_error` call sites in jvcmd.c; each constructor carries the
data interpolated into the printed message. -/
inductive JvFatal where
  | UnknownOption (tok : List Char)
  | UnknownShortOption (c : Char) (tok : List Char)
  | MissingOptionValue (tok : List Char)
  | ChainedOptionNeedsValue (c : Char) (tok : List Char)
  | UnexpectedExtraArgument (total : Nat) (tok : List Char)
  | TooFewPositionalArguments (required : Int) (got : Nat)
  | MissingRequiredOption (name : List Char)
  | InvalidEnumValue (name val allowed : List Char)
  | InvalidInteger (name val : List Char)
  | IntegerOutOfRange (name val : List Char) (lo hi : Int)
  | FloatOutOfRange (name val : List Char) (lo hi : Rat)
  | InvalidBoolean (name val : List Char)
  deriving Repr, DecidableEq

/-- The three process-terminating paths of jvcmd.c: `exit(0)` after printing
help, `exit(0)` after printing the `--jvcmd` attribution notice, and
`exit(1)` from `jvcmd_exit_with_error`. -/
inductive JvExit where
  | helpShown
  | jvcmdShown
  | fatal (e : JvFatal)
  deriving Repr, DecidableEq

instance instDecEqExcept {ε α : Type} [DecidableEq ε] [DecidableEq α] :
    DecidableEq (Except ε α) := fun x y =>
  match x, y with
  | .error a, .error b =>
    if h : a = b then .isTrue (congrArg Except.error h)
    else .isFalse (fun hx => h (Except.error.inj hx))
  | .ok a, .ok b =>
    if h : a = b then .isTrue (congrArg Except.ok h)
    else .isFalse (fun hx => h (Except.ok.inj hx))
  | .error _, .ok _ => .isFalse (fun hx => Except.noConfusion hx)
  | .ok _, .error _ => .isFalse (fun hx => Except.noConfusion hx)

def kwJvcmd : List Char := ['j', 'v', 'c', 'm', 'd']
def kwHelp : List Char := ['h', 'e', 'l', 'p']

/-! ## Token Matcher (check_long_options / check_short_options) -/

/-- The lookup loop of `check_long_options`: find the first option whose
long name equals `arg`, mark it specified and bind its value (the next argv
token when it needs one, `""` otherwise).  Returns the updated list and the
number of argv slots consumed; exhausting the list is the fatal
"Unknown option" path. -/
def longLookup (arg tok : List Char) (next : Option (List Char)) :
    List JvArgument → Except JvExit (List JvArgument × Nat)
  | [] => .error (.fatal (.UnknownOption tok))
  | o :: rest =>
    if o.name = arg then
      if o.need_value then
        match next with
        | none => .error (.fatal (.MissingOptionValue tok))
        | some v => .ok ({ o with specified := true, value := some v } :: rest, 2)
      else
        .ok ({ o with specified := true, value := some [] } :: rest, 1)
    else
      (longLookup arg tok next rest).map (fun p => (o :: p.1, p.2))

/-- `check_long_options` from jvcmd.c.  Returns `none` when the token does
not carry the long prefix (C return value 0). -/
def check_long_options (tok : List Char) (next : Option (List Char))
    (pfx : List Char) (noHelp : Bool) (opts : List JvArgument) :
    Except JvExit (Option (List JvArgument × Nat)) :=
  if pfx.isPrefixOf tok then
    let arg := tok.drop pfx.length
    if arg = kwJvcmd then .error .jvcmdShown
    else if ¬noHelp ∧ arg = kwHelp then .error .helpShown
    else (longLookup arg tok next opts).map some
  else
    .ok none

/-- First-match search of the inner `for` loop of `check_short_options`:
splits the option list around the first descriptor whose `short_name` is
`c`; `none` is the `option == NULL` (unknown short option) outcome. -/
def findShort (c : Char) :
    List JvArgument → Option (List JvArgument × JvArgument × List JvArgument)
  | [] => none
  | o :: rest =>
    if o.short_name = c then some ([], o, rest)
    else (findShort c rest).map (fun t => (o :: t.1, t.2.1, t.2.2))

/-- The `while (arg.size > 0)` loop of `check_short_options`, scanning the
characters after the short prefix.  `tok` is the original token (used in
error messages), `next` the following argv slot, `chained` the
`chained_short_names` flag. -/
def shortScan (tok : List Char) (next : Option (List Char)) (noHelp : Bool) :
    List Char → List JvArgument → Bool → Except JvExit (List JvArgument × Nat)
  | [], opts, _ => .ok (opts, 1)
  | c :: rest, opts, chained =>
    if ¬noHelp ∧ c = 'h' then .error .helpShown
    else
      match findShort c opts with
      | none => .error (.fatal (.UnknownShortOption c tok))
      | some (before, o, after) =>
        if o.need_value then
          if chained then
            .error (.fatal (.ChainedOptionNeedsValue c tok))
          else if 0 < rest.length then
            .ok (before ++ { o with specified := true, value := some rest } :: after, 1)
          else
            match next with
            | none => .error (.fatal (.MissingOptionValue tok))
            | some v =>
              .ok (before ++ { o with specified := true, value := some v } :: after, 2)
        else
          shortScan tok next noHelp rest
            (before ++ { o with specified := true, value := some [] } :: after) true

/-- `check_short_options` from jvcmd.c.  Returns `none` when the token does
not carry the short prefix. -/
def check_short_options (tok : List Char) (next : Option (List Char))
    (pfx : List Char) (noHelp : Bool) (opts : List JvArgument) :
    Except JvExit (Option (List JvArgument × Nat)) :=
  if pfx.isPrefixOf tok then
    (shortScan tok next noHelp (tok.drop pfx.length) opts false).map some
  else
    .ok none

/-- `check_options` from jvcmd.c: long prefix first, then short prefix; a
prefix of length 0 disables the corresponding path.  Result 0 (here `none`)
means "not an option, try positional". -/
def check_options (tok : List Char) (next : Option (List Char))
    (shortPfx longPfx : List Char) (noHelp : Bool) (opts : List JvArgument) :
    Except JvExit (Option (List JvArgument × Nat)) :=
  match (if 0 < longPfx.length then check_long_options tok next longPfx noHelp opts
         else .ok none) with
  | .error e => .error e
  | .ok (some r) => .ok (some r)
  | .ok none =>
    match (if 0 < shortPfx.length then check_short_options tok next shortPfx noHelp opts
           else .ok none) with
    | .error e => .error e
    | .ok (some r) => .ok (some r)
    | .ok none => .ok none

/-! ## Value Converter & Validator (check_convert_value) -/

def intMinC : Int := -(2 ^ 31)
def intMaxC : Int := 2 ^ 31 - 1

/-- The allowed-value set block of `check_convert_value`. -/
def checkAllowed (arg : JvArgument) (v : List Char) : Except JvExit Unit :=
  match arg.allowed_values with
  | some allowed =>
    if ¬isInSpaceList v allowed then
      .error (.fatal (.InvalidEnumValue arg.name v allowed))
    else .ok ()
  | none => .ok ()

/-- The `if (arg->is_int)` block of `check_convert_value`: `strtol` base 0,
"not an integer" when no conversion happened, range check (defaulting to
the `int` representable range when `int_min == int_max`), store `as_int`. -/
def checkInt (arg : JvArgument) (v : List Char) : Except JvExit JvArgument :=
  if arg.is_int then
    let lo := if arg.int_min = arg.int_max then intMinC else arg.int_min
    let hi := if arg.int_min = arg.int_max then intMaxC else arg.int_max
    let r := strtolModel v
    if r.consumed = 0 then
      .error (.fatal (.InvalidInteger arg.name v))
    else if r.erange ∨ r.value > hi ∨ r.value < lo then
      .error (.fatal (.IntegerOutOfRange arg.name v lo hi))
    else .ok { arg with as_int := r.value }
  else .ok arg

/-- The `if (arg->is_float)` block of `check_convert_value`: `strtof`, a
range check only when `float_min != float_max`, store `as_float`.  Note
that unlike the integer block there is no "no conversion performed"
test. -/
def checkFloat (arg : JvArgument) (v : List Char) : Except JvExit JvArgument :=
  if arg.is_float then
    let r := strtofModel v
    if ¬(arg.float_min = arg.float_max) ∧ (r.value < arg.float_min ∨ r.value > arg.float_max) then
      .error (.fatal (.FloatOutOfRange arg.name v arg.float_min arg.float_max))
    else .ok { arg with as_float := r.value }
  else .ok arg

/-- The `if (arg->is_bool)` block of `check_convert_value`: membership in
the configured false/true synonym lists. -/
def checkBool (cfg : JvParsingConfig) (arg : JvArgument) (v : List Char) :
    Except JvExit JvArgument :=
  if arg.is_bool then
    let isFalse := isInSpaceList v (cfg.false_synonyms.getD [])
    let isTrue := isInSpaceList v (cfg.true_synonyms.getD [])
    if ¬isFalse ∧ ¬isTrue then
      .error (.fatal (.InvalidBoolean arg.name v))
    else .ok { arg with as_bool := isTrue }
  else .ok arg

/-- The conversion/validation part of `check_convert_value`, entered once
the descriptor is known to be specified (possibly via its default value):
allowed-value set, then integer, float and boolean conversion blocks, in
the order of jvcmd.c.  `v` reads the raw value (the C code reads the
`value` pointer, never NULL at this point). -/
def convertChecks (cfg : JvParsingConfig) (arg : JvArgument) :
    Except JvExit JvArgument :=
  if arg.need_value then
    let v := arg.value.getD []
    match checkAllowed arg v with
    | .error e => .error e
    | .ok _ =>
      match checkInt arg v with
      | .error e => .error e
      | .ok a1 =>
        match checkFloat a1 v with
        | .error e => .error e
        | .ok a2 => checkBool cfg a2 v
  else .ok arg

/-- `check_convert_value` from jvcmd.c: handle the unspecified cases
(default value, required, skip), then run the conversions.  The trailing
`action` callback is an external extension point and is absent here. -/
def check_convert_value (cfg : JvParsingConfig) (arg : JvArgument) :
    Except JvExit JvArgument :=
  if ¬arg.specified then
    if arg.need_value ∧ arg.default_value.isSome then
      convertChecks cfg { arg with value := arg.default_value, specified := true }
    else if arg.required then
      .error (.fatal (.MissingRequiredOption arg.name))
    else
      .ok arg
  else
    convertChecks cfg arg

/-- `set_actual_need_value` from jvcmd.c. -/
def set_actual_need_value (a : JvArgument) : JvArgument :=
  { a with need_value :=
      a.need_value || a.is_int || a.is_float || a.is_bool || a.allowed_values.isSome }

/-! ## Positional Assigner & Parse Driver (jvcmd_parse_arguments) -/

/-- Mark positional descriptor number `n` specified with raw value `tok`
(the in-place write `config.pos_args[argument_pos]->...`). -/
def bindPos (tok : List Char) : Nat → List JvArgument → List JvArgument
  | _, [] => []
  | 0, p :: rest => { p with specified := true, value := some tok } :: rest
  | n + 1, p :: rest => p :: bindPos tok n rest

/-- Mutable state of the scanning loop of `jvcmd_parse_arguments`. -/
structure ScanState where
  opts : List JvArgument
  pos_args : List JvArgument
  argument_pos : Nat := 0
  no_more : Bool := false
  deriving Repr, DecidableEq

/-- Handling of one token that was not consumed as an option
(`nb_argv_consumed == 0` branch of the loop): positional binding or
extra-value overflow.  Returns the new state and whether the
`stops_at_last_pos` break fires. -/
def posStep (cfg : JvParsingConfig) (tok : List Char) (st : ScanState) :
    Except JvExit (ScanState × Bool) :=
  let total := st.pos_args.length
  if st.argument_pos ≥ total then
    if ¬cfg.has_action_extra_value then
      .error (.fatal (.UnexpectedExtraArgument total tok))
    else
      .ok ({ st with argument_pos := st.argument_pos + 1 },
        cfg.stops_at_last_pos && decide (st.argument_pos + 1 = total))
  else
    .ok ({ st with pos_args := bindPos tok st.argument_pos st.pos_args,
                   argument_pos := st.argument_pos + 1 },
      cfg.stops_at_last_pos && decide (st.argument_pos + 1 = total))

/-- One iteration of the scanning loop: terminator test and option matching
(only outside `NO_MORE_OPTIONS`), else positional handling.  Returns the
new state, how many argv slots were consumed, and whether the loop breaks. -/
def scanStep (cfg : JvParsingConfig) (shortPfx longPfx noMoreTok : List Char)
    (tok : List Char) (next : Option (List Char)) (st : ScanState) :
    Except JvExit (ScanState × Nat × Bool) :=
  if st.no_more = false then
    if tok = noMoreTok then
      .ok ({ st with no_more := true }, 1, false)
    else
      match check_options tok next shortPfx longPfx cfg.no_help st.opts with
      | .error e => .error e
      | .ok (some (opts', n)) => .ok ({ st with opts := opts' }, n, false)
      | .ok none =>
        match posStep cfg tok st with
        | .error e => .error e
        | .ok (st', halt) => .ok (st', 1, halt)
  else
    match posStep cfg tok st with
    | .error e => .error e
    | .ok (st', halt) => .ok (st', 1, halt)

/-- The `for (int i = 0; i < argc;)` loop of `jvcmd_parse_arguments`:
`i += nb_argv_consumed` with `nb_argv_consumed` either 1 or 2 (2 when the
following token was consumed as an option value). -/
def scanLoop (cfg : JvParsingConfig) (shortPfx longPfx noMoreTok : List Char) :
    List (List Char) → ScanState → Except JvExit ScanState
  | [], st => .ok st
  | tok :: rest, st =>
    match scanStep cfg shortPfx longPfx noMoreTok tok rest.head? st with
    | .error e => .error e
    | .ok (st', n, halt) =>
      if halt then .ok st'
      else
        match n with
        | 2 =>
          match rest with
          | [] => .ok st'
          | _ :: rest2 => scanLoop cfg shortPfx longPfx noMoreTok rest2 st'
        | _ => scanLoop cfg shortPfx longPfx noMoreTok rest st'

/-- The post-loop phase of `jvcmd_parse_arguments`: the
minimum-positional-count check, then `check_convert_value` over options and
positional arguments in list order. -/
def finishParse (cfg : JvParsingConfig) (st : ScanState) :
    Except JvExit (List JvArgument × List JvArgument) :=
  if (st.argument_pos : Int) < cfg.nb_pos_args_required then
    .error (.fatal (.TooFewPositionalArguments cfg.nb_pos_args_required st.argument_pos))
  else
    match st.opts.mapM (check_convert_value cfg) with
    | .error e => .error e
    | .ok opts' =>
      match st.pos_args.mapM (check_convert_value cfg) with
      | .error e => .error e
      | .ok pos' => .ok (opts', pos')

def defaultTrueSynonyms : List Char :=
  ['1', ' ', 't', 'r', 'u', 'e', ' ', 'T', 'r', 'u', 'e', ' ',
   'T', 'R', 'U', 'E', ' ', 'y', ' ', 'Y', ' ', 'y', 'e', 's', ' ',
   'Y', 'e', 's', ' ', 'Y', 'E', 'S']

def defaultFalseSynonyms : List Char :=
  ['0', ' ', 'f', 'a', 'l', 's', 'e', ' ', 'F', 'a', 'l', 's', 'e', ' ',
   'F', 'A', 'L', 'S', 'E', ' ', 'n', ' ', 'N', ' ', 'n', 'o', ' ',
   'N', 'o', ' ', 'N', 'O']

/-- `jvcmd_parse_arguments` from jvcmd.c: program-name handling, defaulting
of the configurable prefixes and synonym sets, `set_actual_need_value` over
every descriptor, the scanning loop, then `finishParse`.  Returns the final
option and positional descriptor lists. -/
def jvcmd_parse_arguments (argv : List (List Char)) (cfg : JvParsingConfig)
    (options pos_args : List JvArgument) :
    Except JvExit (List JvArgument × List JvArgument) :=
  let argv := if cfg.program_name.isSome then argv else argv.drop 1
  let shortPfx := cfg.short_options_prefix.getD ['-']
  let longPfx := cfg.options_prefix.getD ['-', '-']
  let noMoreTok := cfg.no_more_options.getD ['-', '-']
  let cfg := { cfg with
    true_synonyms := some (cfg.true_synonyms.getD defaultTrueSynonyms)
    false_synonyms := some (cfg.false_synonyms.getD defaultFalseSynonyms) }
  match scanLoop cfg shortPfx longPfx noMoreTok argv
      { opts := options.map set_actual_need_value
        pos_args := pos_args.map set_actual_need_value } with
  | .error e => .error e
  | .ok st => finishParse cfg st

/-! ## Helper lemmas -/

theorem isPrefixOf_self_append (l m : List Char) : l.isPrefixOf (l ++ m) = true := by
  induction l with
  | nil => simp [List.isPrefixOf]
  | cons c cs ih => simp [List.isPrefixOf, ih]

theorem isPrefixOf_self (l : List Char) : l.isPrefixOf l = true := by
  have h := isPrefixOf_self_append l []
  simp only [List.append_nil] at h
  exact h

theorem drop_len_append (l m : List Char) : (l ++ m).drop l.length = m := by
  induction l with
  | nil => rfl
  | cons c cs ih => simp only [List.cons_append, List.length_cons, List.drop_succ_cons]; exact ih

theorem drop_len_self (l : List Char) : l.drop l.length = [] := by
  have h := drop_len_append l []
  simp only [List.append_nil] at h
  exact h

/-- `shortNeed c opts`: the `need_value` field of the first option whose
short name is `c`, when one exists.  This is the only information the
short-option scanner reads from the match besides performing the update. -/
def shortNeed (c : Char) : List JvArgument → Option Bool
  | [] => none
  | o :: rest => if o.short_name = c then some o.need_value else shortNeed c rest

/-- short name / need_value skeleton of an option list; invariant under the
updates the token matcher performs. -/
def shapeOf (opts : List JvArgument) : List (Char × Bool) :=
  opts.map (fun o => (o.short_name, o.need_value))

theorem shortNeed_congr (c : Char) :
    ∀ {l₁ l₂ : List JvArgument}, shapeOf l₁ = shapeOf l₂ →
      shortNeed c l₁ = shortNeed c l₂ := by
  intro l₁
  induction l₁ with
  | nil =>
    intro l₂ h
    cases l₂ with
    | nil => rfl
    | cons b bs => simp [shapeOf] at h
  | cons a as ih =>
    intro l₂ h
    cases l₂ with
    | nil => simp [shapeOf] at h
    | cons b bs =>
      simp only [shapeOf, List.map_cons, List.cons.injEq, Prod.mk.injEq] at h
      obtain ⟨⟨h1, h2⟩, h3⟩ := h
      simp only [shortNeed, h1, h2]
      split
      · rfl
      · exact ih h3

theorem findShort_none_iff (c : Char) (l : List JvArgument) :
    findShort c l = none ↔ shortNeed c l = none := by
  induction l with
  | nil => simp [findShort, shortNeed]
  | cons o rest ih =>
    simp only [findShort, shortNeed]
    split
    · simp
    · simpa using ih

theorem findShort_of_shortNeed (c : Char) (nv : Bool) :
    ∀ (l : List JvArgument), shortNeed c l = some nv →
      ∃ b o a, findShort c l = some (b, o, a) ∧ o.need_value = nv ∧
        o.short_name = c ∧ l = b ++ o :: a := by
  intro l
  induction l with
  | nil => intro h; simp [shortNeed] at h
  | cons p rest ih =>
    intro h
    simp only [shortNeed] at h
    by_cases hc : p.short_name = c
    · refine ⟨[], p, rest, ?_, ?_, hc, rfl⟩
      · simp [findShort, hc]
      · simp only [hc, if_true, Option.some.injEq] at h
        exact h
    · simp only [hc, if_false] at h
      obtain ⟨b, o, a, hf, hnv, hsn, hl⟩ := ih h
      refine ⟨p :: b, o, a, ?_, hnv, hsn, by simp [hl]⟩
      simp [findShort, hc, hf]

/-- The state update the short scanner performs on a matched no-value flag:
mark the first option with short name `c` specified with value `""`. -/
def markFlag (c : Char) (opts : List JvArgument) : List JvArgument :=
  match findShort c opts with
  | some (b, o, a) => b ++ { o with specified := true, value := some [] } :: a
  | none => opts

/-- Left-to-right marking of a whole run of no-value flags. -/
def markFlags (s : List Char) (opts : List JvArgument) : List JvArgument :=
  s.foldl (fun os c => markFlag c os) opts

theorem markFlags_nil (opts : List JvArgument) : markFlags [] opts = opts := rfl

theorem markFlags_cons (c : Char) (s : List Char) (opts : List JvArgument) :
    markFlags (c :: s) opts = markFlags s (markFlag c opts) := rfl

theorem markFlags_append (s₁ s₂ : List Char) (opts : List JvArgument) :
    markFlags (s₁ ++ s₂) opts = markFlags s₂ (markFlags s₁ opts) := by
  simp [markFlags, List.foldl_append]

theorem shapeOf_append (l₁ l₂ : List JvArgument) :
    shapeOf (l₁ ++ l₂) = shapeOf l₁ ++ shapeOf l₂ := by
  simp [shapeOf]

theorem findShort_decomp (c : Char) :
    ∀ (l : List JvArgument) (b : List JvArgument) (o : JvArgument)
      (a : List JvArgument), findShort c l = some (b, o, a) → l = b ++ o :: a := by
  intro l
  induction l with
  | nil => intro b o a h; simp [findShort] at h
  | cons p rest ih =>
    intro b o a h
    simp only [findShort] at h
    by_cases hc : p.short_name = c
    · simp only [hc, if_true, Option.some.injEq, Prod.mk.injEq] at h
      obtain ⟨hb, ho, ha⟩ := h
      subst hb; subst ho; subst ha
      rfl
    · simp only [hc, if_false, Option.map_eq_some'] at h
      obtain ⟨t, ht, he⟩ := h
      obtain ⟨t1, t2, t3⟩ := t
      simp only [Prod.mk.injEq] at he
      obtain ⟨hb, ho, ha⟩ := he
      subst hb; subst ho; subst ha
      have := ih t1 t2 t3 ht
      simp [this]

theorem shapeOf_markFlag (c : Char) (opts : List JvArgument) :
    shapeOf (markFlag c opts) = shapeOf opts := by
  unfold markFlag
  cases hf : findShort c opts with
  | none => rfl
  | some t =>
    obtain ⟨b, o, a⟩ := t
    have hd := findShort_decomp c opts b o a hf
    rw [hd]
    simp [shapeOf]

theorem shapeOf_markFlags (s : List Char) :
    ∀ (opts : List JvArgument), shapeOf (markFlags s opts) = shapeOf opts := by
  induction s with
  | nil => intro opts; rfl
  | cons c cs ih =>
    intro opts
    rw [markFlags_cons, ih, shapeOf_markFlag]

theorem shortNeed_markFlag (c x : Char) (opts : List JvArgument) :
    shortNeed x (markFlag c opts) = shortNeed x opts :=
  shortNeed_congr x (shapeOf_markFlag c opts)

theorem shortNeed_markFlags (s : List Char) (x : Char) (opts : List JvArgument) :
    shortNeed x (markFlags s opts) = shortNeed x opts :=
  shortNeed_congr x (shapeOf_markFlags s opts)

/-- A character is a "pure flag" for an option list when it does not
trigger the built-in help and its first short-name match is a descriptor
that needs no value. -/
def FlagChar (noHelp : Bool) (opts : List JvArgument) (c : Char) : Prop :=
  (noHelp = false → c ≠ 'h') ∧ shortNeed c opts = some false

instance (noHelp : Bool) (opts : List JvArgument) (c : Char) :
    Decidable (FlagChar noHelp opts c) := by
  unfold FlagChar
  infer_instance

theorem markFlag_of_findShort (c : Char) (opts b : List JvArgument)
    (o : JvArgument) (a : List JvArgument) (hf : findShort c opts = some (b, o, a)) :
    markFlag c opts = b ++ { o with specified := true, value := some [] } :: a := by
  unfold markFlag
  rw [hf]

/-- Scanning a run that begins with pure flags first marks all of them,
then continues on the rest of the run with `chained_short_names` raised
(when at least one flag was consumed). -/
theorem shortScan_flag_run (tok : List Char) (next : Option (List Char)) (noHelp : Bool) :
    ∀ (s1 s2 : List Char) (opts : List JvArgument) (ch : Bool),
      (∀ c ∈ s1, FlagChar noHelp opts c) →
      shortScan tok next noHelp (s1 ++ s2) opts ch =
        shortScan tok next noHelp s2 (markFlags s1 opts) (ch || !s1.isEmpty) := by
  intro s1
  induction s1 with
  | nil =>
    intro s2 opts ch _
    simp [markFlags_nil]
  | cons c cs ih =>
    intro s2 opts ch h
    obtain ⟨hch, hneed⟩ := h c (by simp)
    obtain ⟨b, o, a, hf, hnv, hsn, hl⟩ := findShort_of_shortNeed c false opts hneed
    have hmark := markFlag_of_findShort c opts b o a hf
    have hcond : ¬(¬noHelp = true ∧ c = 'h') := by
      intro hx
      rw [Bool.not_eq_true] at hx
      exact hch hx.1 hx.2
    simp only [List.cons_append, shortScan, hcond, if_false, hf, ite_false]
    rw [if_neg (show ¬(o.need_value = true) by simp [hnv])]
    rw [← hmark]
    have hcs : ∀ x ∈ cs, FlagChar noHelp (markFlag c opts) x := by
      intro x hx
      obtain ⟨h1, h2⟩ := h x (by simp [hx])
      exact ⟨h1, by rw [shortNeed_markFlag]; exact h2⟩
    simp only [List.append_eq]
    rw [ih s2 (markFlag c opts) true hcs]
    simp [markFlags_cons]

/-- A run consisting purely of flags succeeds, marks every flag in order,
and consumes exactly one argv slot. -/
theorem shortScan_all_flags (tok : List Char) (next : Option (List Char))
    (noHelp : Bool) (s : List Char) (opts : List JvArgument) (ch : Bool)
    (h : ∀ c ∈ s, FlagChar noHelp opts c) :
    shortScan tok next noHelp s opts ch = .ok (markFlags s opts, 1) := by
  have hrun := shortScan_flag_run tok next noHelp s [] opts ch (by simpa using h)
  rw [List.append_nil] at hrun
  rw [hrun]
  rfl

/-! ## Unfolding lemmas for the scanning loop -/

theorem scanLoop_nil (cfg : JvParsingConfig) (sp lp nm : List Char) (st : ScanState) :
    scanLoop cfg sp lp nm [] st = .ok st := rfl

theorem scanLoop_cons (cfg : JvParsingConfig) (sp lp nm tok : List Char)
    (rest : List (List Char)) (st : ScanState) :
    scanLoop cfg sp lp nm (tok :: rest) st =
      match scanStep cfg sp lp nm tok rest.head? st with
      | .error e => .error e
      | .ok (st', n, halt) =>
        if halt then .ok st'
        else
          match n with
          | 2 =>
            match rest with
            | [] => .ok st'
            | _ :: rest2 => scanLoop cfg sp lp nm rest2 st'
          | _ => scanLoop cfg sp lp nm rest st' := by
  conv_lhs => rw [scanLoop]

theorem check_long_options_not_matched (tok : List Char) (next : Option (List Char))
    (lp : List Char) (noHelp : Bool) (opts : List JvArgument)
    (h : lp.isPrefixOf tok = false) :
    check_long_options tok next lp noHelp opts = .ok none := by
  simp [check_long_options, h]

theorem check_options_to_short (tok : List Char) (next : Option (List Char))
    (sp lp : List Char) (noHelp : Bool) (opts : List JvArgument)
    (hlong : 0 < lp.length → lp.isPrefixOf tok = false)
    (hsp : 0 < sp.length) (hp : sp.isPrefixOf tok = true) :
    check_options tok next sp lp noHelp opts =
      match shortScan tok next noHelp (tok.drop sp.length) opts false with
      | .error e => .error e
      | .ok r => .ok (some r) := by
  unfold check_options
  have hlongRes :
      (if 0 < lp.length then check_long_options tok next lp noHelp opts
       else .ok none) = (.ok none : Except JvExit (Option (List JvArgument × Nat))) := by
    by_cases h : 0 < lp.length
    · rw [if_pos h]
      exact check_long_options_not_matched tok next lp noHelp opts (hlong h)
    · rw [if_neg h]
  rw [hlongRes, if_pos hsp]
  unfold check_short_options
  rw [if_pos hp]
  cases shortScan tok next noHelp (tok.drop sp.length) opts false with
  | error e => rfl
  | ok r => rfl

theorem check_options_long_hit (tok : List Char) (next : Option (List Char))
    (sp lp : List Char) (noHelp : Bool) (opts : List JvArgument)
    (r : Except JvExit (Option (List JvArgument × Nat)))
    (hlp : 0 < lp.length)
    (h : check_long_options tok next lp noHelp opts = r)
    (hr : r ≠ .ok none) :
    check_options tok next sp lp noHelp opts = r := by
  unfold check_options
  rw [if_pos hlp, h]
  cases r with
  | error e => rfl
  | ok o =>
    cases o with
    | none => exact absurd rfl hr
    | some p => rfl

theorem posStep_no_more (cfg : JvParsingConfig) (tok : List Char)
    (st st' : ScanState) (halt : Bool)
    (h : posStep cfg tok st = .ok (st', halt)) : st'.no_more = st.no_more := by
  simp only [posStep] at h
  split_ifs at h
  all_goals first
    | exact Except.noConfusion h
    | (simp only [Except.ok.injEq, Prod.mk.injEq] at h
       exact (congrArg ScanState.no_more h.1).symm)


/-! ## Concrete fixtures used by witnesses and counterexamples -/

/-- A configuration with everything left at the C defaults; the program
name is supplied so that `argv` holds only the arguments proper. -/
def cfgStd : JvParsingConfig := { program_name := some [] }

def optX : JvArgument := { name := ['x'], short_name := 'x' }

def optL : JvArgument := { name := ['l', 'i', 'b'], short_name := 'L', need_value := true }

/-! ## Claims -/

/-- C9: for a descriptor left unspecified by the token pass,
`check_convert_value` (1) stores the default as the raw value, marks the
descriptor specified and proceeds to the normal conversions when a default
is declared and the descriptor needs a value; (2) fails fatally with a
missing-required error when it is required and case (1) does not apply
(including when a default is declared but the descriptor needs no value);
(3) otherwise returns the descriptor unchanged, skipping all further
checks. -/
theorem claim9_default_required_skip (cfg : JvParsingConfig) (arg : JvArgument)
    (h : arg.specified = false) :
    (arg.need_value = true → arg.default_value.isSome = true →
      check_convert_value cfg arg =
        convertChecks cfg { arg with value := arg.default_value, specified := true })
    ∧ (¬(arg.need_value = true ∧ arg.default_value.isSome = true) →
        arg.required = true →
        check_convert_value cfg arg =
          .error (.fatal (.MissingRequiredOption arg.name)))
    ∧ (¬(arg.need_value = true ∧ arg.default_value.isSome = true) →
        arg.required = false →
        check_convert_value cfg arg = .ok arg) := by
  refine ⟨?_, ?_, ?_⟩
  · intro h1 h2
    simp [check_convert_value, h, h1, h2]
  · intro h12 hreq
    simp [check_convert_value, h, h12, hreq]
  · intro h12 hreq
    simp [check_convert_value, h, h12, hreq]

def c9arg : JvArgument := { name := ['w'] }

/-- Witness for C9: an unspecified, optional descriptor without default is
skipped untouched. -/
theorem claim9_witness :
    c9arg.specified = false ∧ check_convert_value cfgStd c9arg = .ok c9arg :=
  ⟨rfl, (claim9_default_required_skip cfgStd c9arg rfl).2.2 (by decide) rfl⟩

def c4arg : JvArgument :=
  { name := ['f'], need_value := true, is_float := true, specified := true,
    value := some ['a', 'b', 'c'] }

def c4optF : JvArgument := { name := ['f'], short_name := 'f', is_float := true }

/-- C4 (code bug): the float conversion block of `check_convert_value` has
no "no conversion performed" test, so the clearly non-numeric raw value
"abc" is accepted and stored as 0, and a full parse of `--f abc` with a
float-typed option completes normally — contradicting jvcmd.h
("error if not float") and the claim. -/
theorem claim4_float_nonnumeric_accepted :
    check_convert_value cfgStd c4arg = .ok { c4arg with as_float := 0 }
    ∧ (jvcmd_parse_arguments [['-', '-', 'f'], ['a', 'b', 'c']] cfgStd
        [c4optF] []).isOk = true := by
  decide

def c3argTrail : JvArgument :=
  { name := ['n'], need_value := true, is_int := true, specified := true,
    value := some ['4', '2', 'a', 'b', 'c'] }

/-- C3 counterexample: the integer conversion of "42abc" (valid prefix, 
trailing characters) does NOT fail; it stores `as_int = 42`, so trailing
characters are tolerated, contrary to the claim. -/
theorem claim3_counterexample :
    check_convert_value cfgStd c3argTrail = .ok { c3argTrail with as_int := 42 } := by
  decide

/-- C3 amended: the "not an integer" fatal error fires exactly when
`strtol` performs no conversion at all (`end == begin`); a value whose
prefix parses as an integer is accepted (subject to the range check) with
the prefix value stored in `as_int`, trailing characters notwithstanding. -/
theorem claim3_amended (cfg : JvParsingConfig) (arg : JvArgument) (v : List Char)
    (hspec : arg.specified = true) (hnv : arg.need_value = true)
    (hint : arg.is_int = true) (hall : arg.allowed_values = none)
    (hval : arg.value = some v) :
    ((strtolModel v).consumed = 0 →
      check_convert_value cfg arg = .error (.fatal (.InvalidInteger arg.name v)))
    ∧ ((strtolModel v).consumed ≠ 0 →
       (strtolModel v).erange = false →
       (if arg.int_min = arg.int_max then intMinC else arg.int_min) ≤ (strtolModel v).value →
       (strtolModel v).value ≤ (if arg.int_min = arg.int_max then intMaxC else arg.int_max) →
       arg.is_float = false → arg.is_bool = false →
       check_convert_value cfg arg = .ok { arg with as_int := (strtolModel v).value }) := by
  have hv : arg.value.getD [] = v := by rw [hval]; rfl
  constructor
  · intro h0
    simp [check_convert_value, hspec, convertChecks, hnv, hv, checkAllowed, hall,
      checkInt, hint, h0]
  · intro h0 her hlo hhi hf hb
    have h1 : ¬((strtolModel v).value >
        (if arg.int_min = arg.int_max then intMaxC else arg.int_max)) :=
      not_lt.mpr hhi
    have h2 : ¬((strtolModel v).value <
        (if arg.int_min = arg.int_max then intMinC else arg.int_min)) :=
      not_lt.mpr hlo
    simp [check_convert_value, hspec, convertChecks, hnv, hv, checkAllowed, hall,
      checkInt, hint, h0, her, h1, h2, checkFloat, hf, checkBool, hb]

def c3argNoDigits : JvArgument :=
  { name := ['n'], need_value := true, is_int := true, specified := true,
    value := some ['a', 'b', 'c'] }

/-- Witness for the amended C3: "abc" has no integer prefix and is
rejected as "not an integer". -/
theorem claim3_witness :
    (strtolModel ['a', 'b', 'c']).consumed = 0 ∧
      check_convert_value cfgStd c3argNoDigits =
        .error (.fatal (.InvalidInteger ['n'] ['a', 'b', 'c'])) :=
  ⟨by decide,
   (claim3_amended cfgStd c3argNoDigits ['a', 'b', 'c'] rfl rfl rfl rfl rfl).1
     (by decide)⟩


/-- Shared kernel of C1/C2: a run beginning with at least one pure flag and
then reaching a value-needing short option dies with
`ChainedOptionNeedsValue`, naming that option and the original token. -/
theorem shortScan_chained_error (tok : List Char) (next : Option (List Char))
    (noHelp : Bool) (s1 : List Char) (c : Char) (rest : List Char)
    (opts : List JvArgument)
    (hne : s1 ≠ [])
    (hflags : ∀ x ∈ s1, FlagChar noHelp opts x)
    (hchelp : noHelp = false → c ≠ 'h')
    (hcval : shortNeed c opts = some true) :
    shortScan tok next noHelp (s1 ++ c :: rest) opts false =
      .error (.fatal (.ChainedOptionNeedsValue c tok)) := by
  rw [shortScan_flag_run tok next noHelp s1 (c :: rest) opts false hflags]
  have hne' : s1.isEmpty = false := by
    cases s1 with
    | nil => exact absurd rfl hne
    | cons a as => rfl
  have h2 : shortNeed c (markFlags s1 opts) = some true := by
    rw [shortNeed_markFlags]
    exact hcval
  obtain ⟨b, o, a, hf, hnv, hsn, hl⟩ := findShort_of_shortNeed c true _ h2
  have hcond : ¬(¬noHelp = true ∧ c = 'h') := by
    intro hx
    rw [Bool.not_eq_true] at hx
    exact hchelp hx.1 hx.2
  simp [hne', shortScan, hcond, hf, hnv]
  exact hchelp

/-- C2: in a short-option run, a value-needing short option encountered
after at least one flag-only short option was already consumed from the
same token makes the parse terminate fatally with the
chained-option-needs-value error, naming the offending short option and
the original token. -/
theorem claim2_chained_value_fatal (tok : List Char) (next : Option (List Char))
    (noHelp : Bool) (s1 : List Char) (c : Char) (rest : List Char)
    (opts : List JvArgument)
    (hne : s1 ≠ [])
    (hflags : ∀ x ∈ s1, FlagChar noHelp opts x)
    (hchelp : noHelp = false → c ≠ 'h')
    (hcval : shortNeed c opts = some true) :
    shortScan tok next noHelp (s1 ++ c :: rest) opts false =
      .error (.fatal (.ChainedOptionNeedsValue c tok)) :=
  shortScan_chained_error tok next noHelp s1 c rest opts hne hflags hchelp hcval

/-- Witness for C2: scanning the run of "-xL" (x a flag, L value-needing)
fails with the chained-option error naming L and "-xL". -/
theorem claim2_witness :
    shortScan ['-', 'x', 'L'] none false (['x'] ++ 'L' :: []) [optX, optL] false =
      .error (.fatal (.ChainedOptionNeedsValue 'L' ['-', 'x', 'L'])) :=
  claim2_chained_value_fatal ['-', 'x', 'L'] none false ['x'] 'L' [] [optX, optL]
    (by decide) (by decide) (by decide) (by decide)

/-- C1 counterexample: with x flag-only and L value-needing, parsing the
chained token "-xL" does NOT succeed: it terminates fatally with
`ChainedOptionNeedsValue`, so the claim's required outcome (x and L both
specified, L's value taken from the remainder or the next token) never
happens. -/
theorem claim1_counterexample :
    jvcmd_parse_arguments [['-', 'x', 'L']] cfgStd [optX, optL] [] =
      .error (.fatal (.ChainedOptionNeedsValue 'L' ['-', 'x', 'L'])) := by
  decide

/-- C1 amended: parsing the chained token short-prefix + x + L, with x
flag-only and L value-needing, terminates fatally with
`ChainedOptionNeedsValue` naming L and the token; a value-needing short
option is accepted only as the first member of a run. -/
theorem claim1_amended (pfx : List Char) (x L : Char) (next : Option (List Char))
    (noHelp : Bool) (opts : List JvArgument)
    (hx : FlagChar noHelp opts x)
    (hLhelp : noHelp = false → L ≠ 'h')
    (hLval : shortNeed L opts = some true) :
    check_short_options (pfx ++ [x, L]) next pfx noHelp opts =
      .error (.fatal (.ChainedOptionNeedsValue L (pfx ++ [x, L]))) := by
  unfold check_short_options
  rw [if_pos (isPrefixOf_self_append pfx [x, L])]
  rw [drop_len_append]
  have hflags : ∀ z ∈ [x], FlagChar noHelp opts z := by
    intro z hz
    simp only [List.mem_singleton] at hz
    rw [hz]
    exact hx
  have h := shortScan_chained_error (pfx ++ [x, L]) next noHelp [x] L [] opts
    (by simp) hflags hLhelp hLval
  simp only [List.cons_append, List.nil_append] at h
  rw [h]
  rfl

/-- Witness for the amended C1. -/
theorem claim1_witness :
    check_short_options ['-', 'x', 'L'] none ['-'] false [optX, optL] =
      .error (.fatal (.ChainedOptionNeedsValue 'L' ['-', 'x', 'L'])) :=
  claim1_amended ['-'] 'x' 'L' none false [optX, optL] (by decide) (by decide)
    (by decide)


def cfgDashLong : JvParsingConfig :=
  { program_name := some [], options_prefix := some ['-'] }

/-- C10 counterexample: the claim quantifies over every configuration with
a non-empty short prefix, but with the long prefix configured as "-" (equal
to the short prefix), a bare "-" token is claimed by the long-option path
first and dies as an unknown option instead of being consumed as an empty
short run. -/
theorem claim10_counterexample :
    jvcmd_parse_arguments [['-']] cfgDashLong [optX] [] =
      .error (.fatal (.UnknownOption ['-'])) := by
  decide

/-- C10 amended: in SCANNING state, a token equal to the (non-empty) short
prefix is consumed as a short-option run of zero characters — no
descriptor modified, no positional consumed, no error, scanning continuing
at the next token — provided the token is not the terminator and is not
claimed by the long-option path (as under the default configuration, where
"-" is neither "--" nor long-prefixed). -/
theorem claim10_amended (cfg : JvParsingConfig) (sp lp nmTok : List Char)
    (rest : List (List Char)) (st : ScanState)
    (hnm : st.no_more = false) (hsp : sp ≠ [])
    (hterm : sp ≠ nmTok)
    (hlong : 0 < lp.length → lp.isPrefixOf sp = false) :
    scanLoop cfg sp lp nmTok (sp :: rest) st = scanLoop cfg sp lp nmTok rest st := by
  rw [scanLoop_cons]
  have hstep : scanStep cfg sp lp nmTok sp rest.head? st = .ok (st, 1, false) := by
    unfold scanStep
    rw [if_pos hnm, if_neg hterm]
    rw [check_options_to_short sp rest.head? sp lp cfg.no_help st.opts hlong
      (List.length_pos.mpr hsp) (isPrefixOf_self sp)]
    rw [drop_len_self]
    rfl
  rw [hstep]
  rfl

def st10 : ScanState := { opts := [optX], pos_args := [] }

/-- Witness for the amended C10: under default prefixes, a bare "-" is
skipped with the state untouched. -/
theorem claim10_witness :
    scanLoop cfgStd ['-'] ['-', '-'] ['-', '-'] [['-'], ['a']] st10 =
      scanLoop cfgStd ['-'] ['-', '-'] ['-', '-'] [['a']] st10 :=
  claim10_amended cfgStd ['-'] ['-', '-'] ['-', '-'] [['a']] st10 rfl (by decide)
    (by decide) (by decide)

/-- The spec-side reference loop for the `NO_MORE_OPTIONS` state (spec
section 4.3): every token is handled positionally; the configured prefixes
and terminator are not inspected (they do not even occur in this
definition). -/
def posLoop (cfg : JvParsingConfig) : List (List Char) → ScanState → Except JvExit ScanState
  | [], st => .ok st
  | tok :: rest, st =>
    match posStep cfg tok st with
    | .error e => .error e
    | .ok (st', halt) => if halt then .ok st' else posLoop cfg rest st'

theorem scanLoop_no_more_eq_posLoop (cfg : JvParsingConfig) (sp lp nmTok : List Char) :
    ∀ (argv : List (List Char)) (st : ScanState), st.no_more = true →
      scanLoop cfg sp lp nmTok argv st = posLoop cfg argv st := by
  intro argv
  induction argv with
  | nil =>
    intro st h
    rw [scanLoop_nil]
    rfl
  | cons tok rest ih =>
    intro st h
    rw [scanLoop_cons]
    have hstep : scanStep cfg sp lp nmTok tok rest.head? st =
        match posStep cfg tok st with
        | .error e => .error e
        | .ok (st', halt) => .ok (st', 1, halt) := by
      unfold scanStep
      rw [if_neg (by simp [h])]
    rw [hstep]
    cases hp : posStep cfg tok st with
    | error e => simp [posLoop, hp]
    | ok p =>
      obtain ⟨st', halt⟩ := p
      have h' : st'.no_more = true := by
        rw [posStep_no_more cfg tok st st' halt hp, h]
      cases halt with
      | true => simp [posLoop, hp]
      | false =>
        simp only [posLoop, hp]
        simp only [Bool.false_eq_true, if_false]
        exact ih st' h'

/-- C6: (1) in SCANNING state the terminator token flips the state to
`NO_MORE_OPTIONS` permanently, consuming one slot; (2) once in
`NO_MORE_OPTIONS`, the rest of the scan equals the purely positional
reference loop `posLoop`, which never inspects the option prefixes or the
terminator — so no later token is ever compared against them and every
later token is handled positionally (bound or routed to overflow
handling). -/
theorem claim6_terminator_permanent (cfg : JvParsingConfig) (sp lp nmTok : List Char)
    (argv : List (List Char)) (st : ScanState) (next : Option (List Char)) :
    (st.no_more = false → scanStep cfg sp lp nmTok nmTok next st =
      .ok ({ st with no_more := true }, 1, false))
    ∧ (st.no_more = true →
        scanLoop cfg sp lp nmTok argv st = posLoop cfg argv st) := by
  constructor
  · intro h
    unfold scanStep
    rw [if_pos h, if_pos rfl]
  · intro h
    exact scanLoop_no_more_eq_posLoop cfg sp lp nmTok argv st h

def st6 : ScanState :=
  { opts := [optX], pos_args := [{ name := ['p'] }], no_more := true }

/-- Witness for C6: with the terminator already seen, scanning "-x b"
equals the positional-only loop on the same tokens. -/
theorem claim6_witness :
    scanLoop cfgStd ['-'] ['-', '-'] ['-', '-'] [['-', 'x'], ['b']] st6 =
      posLoop cfgStd [['-', 'x'], ['b']] st6 :=
  (claim6_terminator_permanent cfgStd ['-'] ['-', '-'] ['-', '-']
    [['-', 'x'], ['b']] st6 none).2 rfl


def posP : JvArgument := { name := ['p'] }

def posQ : JvArgument := { name := ['q'] }

def cfgC5 : JvParsingConfig :=
  { program_name := some [], nb_pos_args_required := 2, has_action_extra_value := true }

/-- C5 counterexample: with one declared positional, minimum required 2,
and an overflow callback configured, argv = ["a","b"] binds only one
positional ("a"; "b" goes to the callback), yet the parse succeeds: the
counter compared against the minimum also counts the overflow-routed
token, contradicting the claim that such tokens do not count. -/
theorem claim5_counterexample :
    jvcmd_parse_arguments [['a'], ['b']] cfgC5 [] [posP] =
      .ok ([], [{ posP with specified := true, value := some ['a'] }]) := by
  decide

/-- C5 amended: after the scanning loop, the parse fails fatally with
`TooFewPositionalArguments`, reporting the configured minimum and the
count received, exactly when the loop's positional counter — which counts
every positionally-handled token, including tokens routed to the
extra-value overflow callback — is strictly below the minimum. -/
theorem claim5_amended (cfg : JvParsingConfig) (argv : List (List Char))
    (options pos_args : List JvArgument) (st : ScanState)
    (pn sp lp nm ts fs : List Char)
    (hprog : cfg.program_name = some pn)
    (hsp : cfg.short_options_prefix = some sp)
    (hlp : cfg.options_prefix = some lp)
    (hnm : cfg.no_more_options = some nm)
    (hts : cfg.true_synonyms = some ts)
    (hfs : cfg.false_synonyms = some fs)
    (hscan : scanLoop cfg sp lp nm argv
      { opts := options.map set_actual_need_value
        pos_args := pos_args.map set_actual_need_value } = .ok st)
    (hlt : (st.argument_pos : Int) < cfg.nb_pos_args_required) :
    jvcmd_parse_arguments argv cfg options pos_args =
      .error (.fatal (.TooFewPositionalArguments cfg.nb_pos_args_required
        st.argument_pos)) := by
  obtain ⟨f1, f2, f3, f4, f5, f6, f7, f8, f9, f10⟩ := cfg
  dsimp only at hprog hsp hlp hnm hts hfs hlt hscan
  subst hprog
  subst hsp
  subst hlp
  subst hnm
  subst hts
  subst hfs
  unfold jvcmd_parse_arguments
  simp only [Option.getD_some, Option.isSome_some, if_true]
  rw [hscan]
  unfold finishParse
  dsimp only
  rw [if_pos hlt]

def cfgC5w : JvParsingConfig :=
  { program_name := some [], short_options_prefix := some ['-'],
    options_prefix := some ['-', '-'], no_more_options := some ['-', '-'],
    true_synonyms := some ['1'], false_synonyms := some ['0'],
    nb_pos_args_required := 2 }

def stC5w : ScanState :=
  { opts := [], pos_args := [{ posP with specified := true, value := some ['a'] }, posQ],
    argument_pos := 1 }

/-- Witness for the amended C5: only one of two required positionals was
supplied, and the parse reports both numbers. -/
theorem claim5_witness :
    jvcmd_parse_arguments [['a']] cfgC5w [] [posP, posQ] =
      .error (.fatal (.TooFewPositionalArguments 2 1)) :=
  claim5_amended cfgC5w [['a']] [] [posP, posQ] stC5w [] ['-'] ['-', '-'] ['-', '-']
    ['1'] ['0'] rfl rfl rfl rfl rfl rfl (by decide) (by decide)


theorem set_actual_name (x : JvArgument) :
    (set_actual_need_value x).name = x.name := rfl

theorem set_actual_short (x : JvArgument) :
    (set_actual_need_value x).short_name = x.short_name := rfl

/-- A whole argv segment of pure-flag short runs is consumed one slot per
token, marking exactly the flags of the concatenated runs, in order. -/
theorem scanLoop_flag_tokens (cfg : JvParsingConfig) (sp lp nmTok : List Char)
    (hsp0 : 0 < sp.length) :
    ∀ (pieces : List (List Char)) (st : ScanState), st.no_more = false →
      (∀ c ∈ pieces.flatten, FlagChar cfg.no_help st.opts c) →
      (∀ p ∈ pieces, sp ++ p ≠ nmTok ∧
        (0 < lp.length → lp.isPrefixOf (sp ++ p) = false)) →
      scanLoop cfg sp lp nmTok (pieces.map (fun p => sp ++ p)) st =
        .ok { st with opts := markFlags pieces.flatten st.opts } := by
  intro pieces
  induction pieces with
  | nil =>
    intro st hnm h1 h2
    rfl
  | cons p ps ih =>
    intro st hnm hflags hconds
    obtain ⟨hterm, hlong⟩ := hconds p (by simp)
    have hflagp : ∀ c ∈ p, FlagChar cfg.no_help st.opts c := by
      intro c hc
      refine hflags c ?_
      rw [List.flatten_cons]
      exact List.mem_append_left _ hc
    have hstep : scanStep cfg sp lp nmTok (sp ++ p)
        ((ps.map (fun q => sp ++ q)).head?) st =
        .ok ({ st with opts := markFlags p st.opts }, 1, false) := by
      unfold scanStep
      rw [if_pos hnm, if_neg hterm]
      rw [check_options_to_short (sp ++ p) _ sp lp cfg.no_help st.opts hlong hsp0
        (isPrefixOf_self_append sp p)]
      rw [drop_len_append]
      rw [shortScan_all_flags (sp ++ p) _ cfg.no_help p st.opts false hflagp]
    rw [List.map_cons, scanLoop_cons, hstep]
    have hrec := ih { st with opts := markFlags p st.opts } hnm
      (by
        intro c hc
        have hmem : c ∈ (p :: ps).flatten := by
          rw [List.flatten_cons]
          exact List.mem_append_right _ hc
        obtain ⟨h1, h2⟩ := hflags c hmem
        exact ⟨h1, by rw [shortNeed_markFlags]; exact h2⟩)
      (by
        intro q hq
        exact hconds q (by simp [hq]))
    simp only [hrec]
    simp only [Bool.false_eq_true, if_false, List.flatten_cons, markFlags_append]


/-- C7: for flag-only short options, parsing a single chained token equals
parsing any order-preserving decomposition of it into several
short-prefixed tokens: both runs of `jvcmd_parse_arguments` return the same
result for every descriptor (the scan marks exactly the same flags in the
same order, and the conversion phase then acts on identical states). -/
theorem claim7_flag_chain_equiv (cfg : JvParsingConfig)
    (options pos_args : List JvArgument) (pieces : List (List Char))
    (pn sp lp nmTok : List Char)
    (hprog : cfg.program_name = some pn)
    (hsp : cfg.short_options_prefix = some sp)
    (hlp : cfg.options_prefix = some lp)
    (hnmTok : cfg.no_more_options = some nmTok)
    (hsp0 : 0 < sp.length)
    (hflags : ∀ c ∈ pieces.flatten,
      FlagChar cfg.no_help (options.map set_actual_need_value) c)
    (hconds : ∀ p ∈ pieces, sp ++ p ≠ nmTok ∧
      (0 < lp.length → lp.isPrefixOf (sp ++ p) = false))
    (hjterm : sp ++ pieces.flatten ≠ nmTok)
    (hjlong : 0 < lp.length → lp.isPrefixOf (sp ++ pieces.flatten) = false) :
    jvcmd_parse_arguments (pieces.map (fun p => sp ++ p)) cfg options pos_args =
      jvcmd_parse_arguments [sp ++ pieces.flatten] cfg options pos_args := by
  obtain ⟨f1, f2, f3, f4, f5, f6, f7, f8, f9, f10⟩ := cfg
  dsimp only at hprog hsp hlp hnmTok hflags hconds hjterm hjlong
  subst hprog
  subst hsp
  subst hlp
  subst hnmTok
  unfold jvcmd_parse_arguments
  simp only [Option.isSome_some, Option.getD_some, if_true]
  rw [show ([sp ++ pieces.flatten] : List (List Char)) =
    [pieces.flatten].map (fun p => sp ++ p) from rfl]
  rw [scanLoop_flag_tokens _ sp lp nmTok hsp0 pieces _ rfl hflags hconds]
  rw [scanLoop_flag_tokens _ sp lp nmTok hsp0 [pieces.flatten] _ rfl
    (by
      intro c hc
      refine hflags c ?_
      simp only [List.flatten_cons, List.flatten_nil, List.append_nil] at hc
      exact hc)
    (by
      intro q hq
      simp only [List.mem_singleton] at hq
      subst hq
      exact ⟨hjterm, hjlong⟩)]
  simp only [List.flatten_cons, List.flatten_nil, List.append_nil]

def optY : JvArgument := { name := ['y'], short_name := 'y' }

def optZ : JvArgument := { name := ['z'], short_name := 'z' }

def cfgFull : JvParsingConfig :=
  { program_name := some [], short_options_prefix := some ['-'],
    options_prefix := some ['-', '-'], no_more_options := some ['-', '-'] }

/-- Witness for C7: "-xy -z" parses identically to "-xyz" for three
flag-only options x, y, z. -/
theorem claim7_witness :
    jvcmd_parse_arguments [['-', 'x', 'y'], ['-', 'z']] cfgFull
        [optX, optY, optZ] [] =
      jvcmd_parse_arguments [['-', 'x', 'y', 'z']] cfgFull [optX, optY, optZ] [] :=
  claim7_flag_chain_equiv cfgFull [optX, optY, optZ] [] [['x', 'y'], ['z']] []
    ['-'] ['-', '-'] ['-', '-'] rfl rfl rfl rfl (by decide) (by decide) (by decide)
    (by decide) (by decide)


theorem longLookup_cons (arg tok : List Char) (next : Option (List Char))
    (o : JvArgument) (rest : List JvArgument) :
    longLookup arg tok next (o :: rest) =
      (if o.name = arg then
        if o.need_value then
          match next with
          | none => .error (.fatal (.MissingOptionValue tok))
          | some v => .ok ({ o with specified := true, value := some v } :: rest, 2)
        else .ok ({ o with specified := true, value := some [] } :: rest, 1)
      else (longLookup arg tok next rest).map (fun p => (o :: p.1, p.2))) := rfl

theorem findShort_cons (c : Char) (o : JvArgument) (rest : List JvArgument) :
    findShort c (o :: rest) =
      (if o.short_name = c then some ([], o, rest)
       else (findShort c rest).map (fun t => (o :: t.1, t.2.1, t.2.2))) := rfl

theorem shortScan_cons (tok : List Char) (next : Option (List Char)) (noHelp : Bool)
    (c : Char) (rest : List Char) (opts : List JvArgument) (chained : Bool) :
    shortScan tok next noHelp (c :: rest) opts chained =
      (if ¬noHelp ∧ c = 'h' then .error .helpShown
       else
        match findShort c opts with
        | none => .error (.fatal (.UnknownShortOption c tok))
        | some (before, o, after) =>
          if o.need_value then
            if chained then .error (.fatal (.ChainedOptionNeedsValue c tok))
            else if 0 < rest.length then
              .ok (before ++ { o with specified := true, value := some rest } :: after, 1)
            else
              match next with
              | none => .error (.fatal (.MissingOptionValue tok))
              | some v =>
                .ok (before ++ { o with specified := true, value := some v } :: after, 2)
          else
            shortScan tok next noHelp rest
              (before ++ { o with specified := true, value := some [] } :: after) true) := rfl

theorem longLookup_skip (arg tok : List Char) (next : Option (List Char)) :
    ∀ (bl l : List JvArgument), (∀ x ∈ bl, x.name ≠ arg) →
      longLookup arg tok next (bl ++ l) =
        (longLookup arg tok next l).map (fun p => (bl ++ p.1, p.2)) := by
  intro bl
  induction bl with
  | nil =>
    intro l _
    rw [List.nil_append]
    cases hr : longLookup arg tok next l with
    | error e => rfl
    | ok p =>
      obtain ⟨p1, p2⟩ := p
      rfl
  | cons x bl ih =>
    intro l h
    have hx : x.name ≠ arg := h x (by simp)
    rw [List.cons_append]
    rw [longLookup_cons]
    rw [if_neg hx]
    rw [ih l (fun y hy => h y (by simp [hy]))]
    cases hr : longLookup arg tok next l with
    | error e => rfl
    | ok p =>
      obtain ⟨p1, p2⟩ := p
      rfl

theorem findShort_skip (c : Char) :
    ∀ (bl l : List JvArgument), (∀ x ∈ bl, x.short_name ≠ c) →
      findShort c (bl ++ l) =
        (findShort c l).map (fun t => (bl ++ t.1, t.2.1, t.2.2)) := by
  intro bl
  induction bl with
  | nil =>
    intro l _
    rw [List.nil_append]
    cases hr : findShort c l with
    | none => rfl
    | some t =>
      obtain ⟨t1, t2, t3⟩ := t
      rfl
  | cons x bl ih =>
    intro l h
    have hx : x.short_name ≠ c := h x (by simp)
    rw [List.cons_append]
    rw [findShort_cons]
    rw [if_neg hx]
    rw [ih l (fun y hy => h y (by simp [hy]))]
    cases hr : findShort c l with
    | none => rfl
    | some t =>
      obtain ⟨t1, t2, t3⟩ := t
      rfl

/-- `check_long_options` on a long token whose bare name first matches `o`:
mark `o` specified and bind its value from the next argv slot (when
needed) or the empty string. -/
theorem check_long_options_hit (lp nm : List Char) (next : Option (List Char))
    (noHelp : Bool) (bl : List JvArgument) (o : JvArgument) (al : List JvArgument)
    (hskip : ∀ x ∈ bl, x.name ≠ nm) (hname : o.name = nm)
    (hjv : nm ≠ kwJvcmd) (hhelp : ¬(noHelp = false ∧ nm = kwHelp)) :
    check_long_options (lp ++ nm) next lp noHelp (bl ++ o :: al) =
      (if o.need_value then
        match next with
        | none => .error (.fatal (.MissingOptionValue (lp ++ nm)))
        | some v =>
          .ok (some (bl ++ { o with specified := true, value := some v } :: al, 2))
      else
        .ok (some (bl ++ { o with specified := true, value := some [] } :: al, 1))) := by
  unfold check_long_options
  rw [if_pos (isPrefixOf_self_append lp nm), drop_len_append]
  rw [if_neg hjv]
  have hh : ¬(¬noHelp = true ∧ nm = kwHelp) := by
    intro hx
    rw [Bool.not_eq_true] at hx
    exact hhelp hx
  rw [if_neg hh]
  rw [longLookup_skip nm (lp ++ nm) next bl (o :: al) hskip]
  rw [longLookup_cons]
  rw [if_pos hname]
  cases hnv : o.need_value with
  | true =>
    cases next with
    | none => simp [Except.map]
    | some v => simp [Except.map]
  | false => simp [Except.map]

/-- `check_short_options` on a one-character run whose character first
matches `o`. -/
theorem check_short_options_single (sp : List Char) (c : Char)
    (next : Option (List Char)) (noHelp : Bool)
    (bl : List JvArgument) (o : JvArgument) (al : List JvArgument)
    (hskip : ∀ x ∈ bl, x.short_name ≠ c) (hsn : o.short_name = c)
    (hhelp : ¬(noHelp = false ∧ c = 'h')) :
    check_short_options (sp ++ [c]) next sp noHelp (bl ++ o :: al) =
      (if o.need_value then
        match next with
        | none => .error (.fatal (.MissingOptionValue (sp ++ [c])))
        | some v =>
          .ok (some (bl ++ { o with specified := true, value := some v } :: al, 2))
      else
        .ok (some (bl ++ { o with specified := true, value := some [] } :: al, 1))) := by
  unfold check_short_options
  rw [if_pos (isPrefixOf_self_append sp [c]), drop_len_append]
  rw [shortScan_cons]
  have hh : ¬(¬noHelp = true ∧ c = 'h') := by
    intro hx
    rw [Bool.not_eq_true] at hx
    exact hhelp hx
  rw [if_neg hh]
  rw [findShort_skip c bl (o :: al) hskip]
  have hfo : findShort c (o :: al) = some ([], o, al) := by
    rw [findShort_cons]
    rw [if_pos hsn]
  rw [hfo]
  cases hnv : o.need_value with
  | true =>
    cases next with
    | none => simp [Except.map, hnv]
    | some v => simp [Except.map, hnv]
  | false => simp [Except.map, shortScan, hnv]

theorem check_options_short_hit (tok : List Char) (next : Option (List Char))
    (sp lp : List Char) (noHelp : Bool) (opts : List JvArgument)
    (r : Except JvExit (Option (List JvArgument × Nat)))
    (hlong : 0 < lp.length → lp.isPrefixOf tok = false)
    (hsp0 : 0 < sp.length)
    (h : check_short_options tok next sp noHelp opts = r)
    (hr : r ≠ .ok none) :
    check_options tok next sp lp noHelp opts = r := by
  unfold check_options
  have hlres : (if 0 < lp.length then check_long_options tok next lp noHelp opts
      else .ok none) = (.ok none : Except JvExit (Option (List JvArgument × Nat))) := by
    by_cases hl : 0 < lp.length
    · rw [if_pos hl]
      exact check_long_options_not_matched tok next lp noHelp opts (hlong hl)
    · rw [if_neg hl]
  rw [hlres, if_pos hsp0, h]
  cases r with
  | error e => rfl
  | ok ro =>
    cases ro with
    | none => exact absurd rfl hr
    | some p => rfl


/-- Scan-level kernel of C8: a token supplying option `o` via its long name
and a token supplying it via its short name (followed by the same value
when one is needed) drive the scanning loop to the same state. -/
theorem scanLoop_long_short (cfg : JvParsingConfig) (sp lp nmTok : List Char)
    (bl al : List JvArgument) (o : JvArgument) (nm : List Char) (sc : Char)
    (v : List Char) (st : ScanState)
    (hnost : st.no_more = false) (hopts : st.opts = bl ++ o :: al)
    (hnm : o.name = nm) (hsc : o.short_name = sc)
    (hsp0 : 0 < sp.length) (hlp0 : 0 < lp.length)
    (hskipL : ∀ x ∈ bl, x.name ≠ nm)
    (hskipS : ∀ x ∈ bl, x.short_name ≠ sc)
    (hjv : nm ≠ kwJvcmd)
    (hhelpL : ¬(cfg.no_help = false ∧ nm = kwHelp))
    (hhelpS : ¬(cfg.no_help = false ∧ sc = 'h'))
    (htermL : lp ++ nm ≠ nmTok) (htermS : sp ++ [sc] ≠ nmTok)
    (hlpS : lp.isPrefixOf (sp ++ [sc]) = false) :
    scanLoop cfg sp lp nmTok ((lp ++ nm) :: (if o.need_value then [v] else [])) st =
      scanLoop cfg sp lp nmTok ((sp ++ [sc]) :: (if o.need_value then [v] else [])) st := by
  by_cases hnv : o.need_value = true
  · simp only [hnv, if_true]
    have hL : check_long_options (lp ++ nm) (some v) lp cfg.no_help (bl ++ o :: al) =
        .ok (some (bl ++ { o with specified := true, value := some v } :: al, 2)) := by
      rw [check_long_options_hit lp nm (some v) cfg.no_help bl o al hskipL hnm hjv hhelpL,
        if_pos hnv]
    have hS : check_short_options (sp ++ [sc]) (some v) sp cfg.no_help (bl ++ o :: al) =
        .ok (some (bl ++ { o with specified := true, value := some v } :: al, 2)) := by
      rw [check_short_options_single sp sc (some v) cfg.no_help bl o al hskipS hsc hhelpS,
        if_pos hnv]
    have hstepL : scanStep cfg sp lp nmTok (lp ++ nm) (some v) st =
        .ok ({ st with opts := bl ++ { o with specified := true, value := some v } :: al },
          2, false) := by
      unfold scanStep
      rw [if_pos hnost, if_neg htermL, hopts]
      rw [check_options_long_hit (lp ++ nm) (some v) sp lp cfg.no_help
        (bl ++ o :: al) _ hlp0 hL (by simp)]
    have hstepS : scanStep cfg sp lp nmTok (sp ++ [sc]) (some v) st =
        .ok ({ st with opts := bl ++ { o with specified := true, value := some v } :: al },
          2, false) := by
      unfold scanStep
      rw [if_pos hnost, if_neg htermS, hopts]
      rw [check_options_short_hit (sp ++ [sc]) (some v) sp lp cfg.no_help
        (bl ++ o :: al) _ (fun _ => hlpS) hsp0 hS (by simp)]
    rw [scanLoop_cons, scanLoop_cons]
    simp only [List.head?_cons]
    rw [hstepL, hstepS]
  · have hnvf : o.need_value = false := by
      cases h : o.need_value
      · rfl
      · exact absurd h hnv
    simp only [hnvf, Bool.false_eq_true, if_false]
    have hL : check_long_options (lp ++ nm) none lp cfg.no_help (bl ++ o :: al) =
        .ok (some (bl ++ { o with specified := true, value := some [] } :: al, 1)) := by
      rw [check_long_options_hit lp nm none cfg.no_help bl o al hskipL hnm hjv hhelpL,
        if_neg (by rw [hnvf]; exact Bool.false_ne_true)]
    have hS : check_short_options (sp ++ [sc]) none sp cfg.no_help (bl ++ o :: al) =
        .ok (some (bl ++ { o with specified := true, value := some [] } :: al, 1)) := by
      rw [check_short_options_single sp sc none cfg.no_help bl o al hskipS hsc hhelpS,
        if_neg (by rw [hnvf]; exact Bool.false_ne_true)]
    have hstepL : scanStep cfg sp lp nmTok (lp ++ nm) none st =
        .ok ({ st with opts := bl ++ { o with specified := true, value := some [] } :: al },
          1, false) := by
      unfold scanStep
      rw [if_pos hnost, if_neg htermL, hopts]
      rw [check_options_long_hit (lp ++ nm) none sp lp cfg.no_help
        (bl ++ o :: al) _ hlp0 hL (by simp)]
    have hstepS : scanStep cfg sp lp nmTok (sp ++ [sc]) none st =
        .ok ({ st with opts := bl ++ { o with specified := true, value := some [] } :: al },
          1, false) := by
      unfold scanStep
      rw [if_pos hnost, if_neg htermS, hopts]
      rw [check_options_short_hit (sp ++ [sc]) none sp lp cfg.no_help
        (bl ++ o :: al) _ (fun _ => hlpS) hsp0 hS (by simp)]
    rw [scanLoop_cons, scanLoop_cons]
    simp only [List.head?_nil]
    rw [hstepL, hstepS]

/-- C8: for a descriptor declaring both a long and a short name, supplying
the option via its long form or via its short form (with the same value
token when one is needed) produces identical parse results — identical
result fields for every descriptor. -/
theorem claim8_long_short_equiv (cfg : JvParsingConfig)
    (b a pos_args : List JvArgument) (o : JvArgument) (v : List Char)
    (pn sp lp nmTok : List Char)
    (hprog : cfg.program_name = some pn)
    (hsp : cfg.short_options_prefix = some sp)
    (hlp : cfg.options_prefix = some lp)
    (hnmTok : cfg.no_more_options = some nmTok)
    (hsp0 : 0 < sp.length) (hlp0 : 0 < lp.length)
    (hfirst : ∀ x ∈ b, x.name ≠ o.name ∧ x.short_name ≠ o.short_name)
    (hjv : o.name ≠ kwJvcmd)
    (hhelpL : ¬(cfg.no_help = false ∧ o.name = kwHelp))
    (hhelpS : ¬(cfg.no_help = false ∧ o.short_name = 'h'))
    (htermL : lp ++ o.name ≠ nmTok)
    (htermS : sp ++ [o.short_name] ≠ nmTok)
    (hlpS : lp.isPrefixOf (sp ++ [o.short_name]) = false) :
    jvcmd_parse_arguments
        ((lp ++ o.name) :: (if (set_actual_need_value o).need_value then [v] else []))
        cfg (b ++ o :: a) pos_args =
      jvcmd_parse_arguments
        ((sp ++ [o.short_name]) :: (if (set_actual_need_value o).need_value then [v] else []))
        cfg (b ++ o :: a) pos_args := by
  obtain ⟨f1, f2, f3, f4, f5, f6, f7, f8, f9, f10⟩ := cfg
  dsimp only at hprog hsp hlp hnmTok hhelpL hhelpS
  subst hprog
  subst hsp
  subst hlp
  subst hnmTok
  unfold jvcmd_parse_arguments
  simp only [Option.isSome_some, Option.getD_some, if_true]
  rw [List.map_append, List.map_cons]
  rw [scanLoop_long_short _ sp lp nmTok (b.map set_actual_need_value)
    (a.map set_actual_need_value) (set_actual_need_value o) o.name o.short_name v _
    rfl rfl (set_actual_name o) (set_actual_short o) hsp0 hlp0
    (by
      intro x hx
      obtain ⟨y, hy, hxy⟩ := List.mem_map.mp hx
      rw [← hxy, set_actual_name]
      exact (hfirst y hy).1)
    (by
      intro x hx
      obtain ⟨y, hy, hxy⟩ := List.mem_map.mp hx
      rw [← hxy, set_actual_short]
      exact (hfirst y hy).2)
    hjv hhelpL hhelpS htermL htermS hlpS]

/-- Witness for C8: "--lib v" and "-L v" give identical results. -/
theorem claim8_witness :
    jvcmd_parse_arguments [['-', '-', 'l', 'i', 'b'], ['v']] cfgFull [optX, optL] [] =
      jvcmd_parse_arguments [['-', 'L'], ['v']] cfgFull [optX, optL] [] :=
  claim8_long_short_equiv cfgFull [optX] [] [] optL ['v'] [] ['-'] ['-', '-']
    ['-', '-'] rfl rfl rfl rfl (by decide) (by decide) (by decide) (by decide)
    (by decide) (by decide) (by decide) (by decide) (by decide)

end Jvcmd
